import Mathlib

/-!
Verification of `generate_bug_report.py`, an ADB bug-report generator.

Text is modelled as `List Char`.  The Python primitives the script uses
(`str.strip`, `str.split`, `str.splitlines`, `re.sub` with the fixed ANSI
pattern) are embedded as executable Lean functions, and each function of the
script that the claims mention is embedded on top of them.  External effects
(subprocess stdout, stdin, the filesystem) are passed in explicitly: a raw
stdout is an `Option (List Char)` (`none` = the command raised
`subprocess.CalledProcessError`), stdin is a list of parsed inputs, and the
report directory is a finite list of (relative path, contents) pairs.
-/

namespace BugReport

/-- Characters treated as whitespace by Python's `str.strip()` / `str.split()`
(`str.isspace`): ASCII whitespace, `\x1c`–`\x1f`, and the Unicode spaces. -/
def isPySpace (c : Char) : Bool :=
  c = ' ' || c = '\t' || c = '\n' || c = '\x0b' || c = '\x0c' || c = '\r' ||
  c = '\x1c' || c = '\x1d' || c = '\x1e' || c = '\x1f' ||
  c = '\x85' || c = '\xa0' || c = '\u1680' ||
  (0x2000 ≤ c.val && c.val ≤ 0x200a) ||
  c = '\u2028' || c = '\u2029' || c = '\u202f' || c = '\u205f' || c = '\u3000'

/-- Python `str.strip()`: remove leading and trailing whitespace. -/
def pyStrip (l : List Char) : List Char :=
  ((l.dropWhile isPySpace).reverse.dropWhile isPySpace).reverse

/-- Worker for `str.split()`: `acc` holds the (reversed) current token. -/
def pySplitGo : List Char → List Char → List (List Char)
  | [], acc => if acc.isEmpty then [] else [acc.reverse]
  | c :: cs, acc =>
      if isPySpace c then
        if acc.isEmpty then pySplitGo cs [] else acc.reverse :: pySplitGo cs []
      else pySplitGo cs (c :: acc)

/-- Python `str.split()` with no argument: split on runs of whitespace,
discarding empty fields. -/
def pySplit (l : List Char) : List (List Char) := pySplitGo l []

/-- Line boundaries of Python's `str.splitlines()`: LF, CR (and CRLF as one
boundary), VT, FF, FS, GS, RS, NEL, LS, PS. -/
def isLineBreak (c : Char) : Bool :=
  c = '\n' || c = '\r' || c = '\x0b' || c = '\x0c' ||
  c = '\x1c' || c = '\x1d' || c = '\x1e' || c = '\x85' ||
  c = '\u2028' || c = '\u2029'

/-- Worker for `str.splitlines()`: a character-by-character scan; `sawCR`
records that the previous character was a CR, so that an immediately
following LF is swallowed (CRLF is a single boundary); `acc` holds the
(reversed) current line; no empty final line is produced for a terminal
boundary. -/
def splitlinesGo : Bool → List Char → List Char → List (List Char)
  | _, [], acc => if acc.isEmpty then [] else [acc.reverse]
  | sawCR, c :: cs, acc =>
      if sawCR && c = '\n' then splitlinesGo false cs acc
      else if c = '\r' then acc.reverse :: splitlinesGo true cs []
      else if isLineBreak c then acc.reverse :: splitlinesGo false cs []
      else splitlinesGo false cs (c :: acc)

/-- Python `str.splitlines()`. -/
def pySplitlines (l : List Char) : List (List Char) := splitlinesGo false l []

/-- Substring containment, Python's `pat in l`. -/
def strContains (l pat : List Char) : Bool :=
  l.tails.any (fun t => pat.isPrefixOf t)

/-- Characters allowed inside the fixed ANSI pattern `\x1b\[[0-9;]*m`. -/
def isAnsiDigitSemi (c : Char) : Bool := c.isDigit || c = ';'

/-- Try to match the regex `\x1b\[[0-9;]*m` at the head of the list; on a
match, return the remainder after the match.  For this regex, greedy matching
with backtracking succeeds exactly when the maximal run of `[0-9;]` characters
after `ESC[` is followed by `m` (no proper prefix of the run can be followed
by `m`, since `m` is not in `[0-9;]`). -/
def ansiMatch : List Char → Option (List Char)
  | c1 :: c2 :: rest =>
      if c1 = '\x1b' ∧ c2 = '[' then
        match rest.dropWhile isAnsiDigitSemi with
        | [] => none
        | c3 :: rest2 => if c3 = 'm' then some rest2 else none
      else none
  | _ => none

/-- Worker for `re.sub(r'\x1b\[[0-9;]*m', '', ·)`, one left-to-right pass: at
each position, if the pattern matches there the match is deleted and scanning
resumes after it; otherwise the character is kept and scanning advances by
one.  Deleted regions are not rescanned.  The fuel argument only bounds the
recursion; `stripAnsi` supplies enough for it never to run out. -/
def stripAnsiGo : Nat → List Char → List Char
  | 0, l => l
  | _ + 1, [] => []
  | fuel + 1, c :: cs =>
      match ansiMatch (c :: cs) with
      | some rest => stripAnsiGo fuel rest
      | none => c :: stripAnsiGo fuel cs

/-- `re.sub(r'\x1b\[[0-9;]*m', '', l)`. -/
def stripAnsi (l : List Char) : List Char := stripAnsiGo l.length l

/-- `run_adb_command`: on success, the captured stdout is whitespace-stripped
at both ends (`result.stdout.strip()`) and then the ANSI pattern is removed
(`re.sub`); on `CalledProcessError` the function logs and returns `None`. -/
def run_adb_command (raw : Option (List Char)) : Option (List Char) :=
  match raw with
  | some out => some (stripAnsi (pyStrip out))
  | none => none

/-- The liveness marker looked for in each device line (`"device" in line`). -/
def deviceMarker : List Char := "device".toList

/-- `get_connected_devices`: parse the `adb devices` stdout
(`result.stdout.strip().splitlines()`, drop the header line, keep lines
containing `"device"`, take `line.split()[0]`).  On `CalledProcessError`
(`raw = none`) it logs and returns `[]`.  `line.split()[0]` is embedded as
`(pySplit line).head?` inside `filterMap`; the `none` branch is unreachable
for lines containing the marker (the marker has no whitespace character, so
such a line splits into at least one token), which is the only situation the
Python indexing is exercised in. -/
def get_connected_devices (raw : Option (List Char)) : List (List Char) :=
  match raw with
  | none => []
  | some out =>
      (((pySplitlines (pyStrip out)).drop 1).filter
        (fun line => strContains line deviceMarker)).filterMap
        (fun line => (pySplit line).head?)

/-- Outcome of `select_device`: `exit c` models `sys.exit(c)`, `device d` a
returned device id, `blocked` the interactive loop never receiving a valid
choice within the modelled stdin. -/
inductive SelectOutcome where
  | exit (code : Nat)
  | device (d : List Char)
  | blocked
deriving DecidableEq, Repr

/-- One stdin line fed to `int(input(...))`: `none` models a line that raises
`ValueError`, `some c` a line parsing to the integer `c`. -/
abbrev StdinLine := Option Int

/-- Whether a stdin line is accepted by the selection loop:
`1 <= choice <= len(devices)` after a successful `int(...)` parse. -/
def validChoice (numDevices : Nat) : StdinLine → Bool
  | none => false
  | some c => decide (1 ≤ c) && decide (c ≤ (numDevices : Int))

/-- The `while True` selection loop: re-prompt on `ValueError` or an
out-of-range choice, return `devices[choice - 1]` on the first valid
choice. -/
def selectLoop (devices : List (List Char)) : List StdinLine → Option (List Char)
  | [] => none
  | none :: rest => selectLoop devices rest
  | some c :: rest =>
      if 1 ≤ c ∧ c ≤ (devices.length : Int) then
        some (devices.getD (c - 1).toNat [])
      else selectLoop devices rest

/-- `select_device`: exit with status 1 on an empty list, auto-select a
singleton without reading stdin, otherwise run the numbered-prompt loop. -/
def select_device (devices : List (List Char)) (stdin : List StdinLine) :
    SelectOutcome :=
  if devices.isEmpty then .exit 1
  else if devices.length = 1 then .device devices.headI
  else
    match selectLoop devices stdin with
    | some d => .device d
    | none => .blocked

/-- The collection stages of `__main__`, in program order (the bug-report
stage is commented out in the source and never runs). -/
inductive Stage where
  | pullDirectories
  | pullRecentFiles
  | collectLogs
  | createZip
deriving DecidableEq, Repr

/-- The list of collection stages `__main__` executes after device selection
(`--simplified` skips the full-directory stage). -/
def collectionStages (simplified : Bool) : List Stage :=
  (if simplified then [] else [.pullDirectories]) ++
    [.pullRecentFiles, .collectLogs, .createZip]

/-- Result of the front of `__main__`: either the process exited during
device selection (running no collection stage), or selection blocked forever
on stdin, or a device was selected and the collection stages ran. -/
inductive MainOutcome where
  | exited (code : Nat)
  | blocked
  | ran (device : List Char) (stages : List Stage)
deriving DecidableEq, Repr

/-- The front of `__main__`: `devices = get_connected_devices()`,
`selected_device = select_device(devices)`, then the collection stages. -/
def mainFront (raw : Option (List Char)) (stdin : List StdinLine)
    (simplified : Bool) : MainOutcome :=
  match select_device (get_connected_devices raw) stdin with
  | .exit c => .exited c
  | .blocked => .blocked
  | .device d => .ran d (collectionStages simplified)

/-- The `adb devices` header line, for the zero-devices listing. -/
def adbHeader : List Char := "List of devices attached".toList

/-- The four local destinations a pulled recent file can be routed to. -/
inductive Dest where
  | screenRecordings
  | qgcLogs
  | navsuiteLogs
  | generic
deriving DecidableEq, Repr

/-- The destination dispatch inside `pull_recent_files`:
`"Movies" in directory and recent_file.startswith("screen-")` →
Screen Recordings; `elif "ConsoleLogs" in directory` → QGC Logs;
`elif "Navsuite" in directory` → Navsuite Logs; `else` the generic
destination directory. -/
def routeDest (directory recent_file : List Char) : Dest :=
  if (strContains directory "Movies".toList &&
      "screen-".toList.isPrefixOf recent_file) = true then .screenRecordings
  else if strContains directory "ConsoleLogs".toList = true then .qgcLogs
  else if strContains directory "Navsuite".toList = true then .navsuiteLogs
  else .generic

/-- The routing rule as the spec words it: an explicit ordered list of
(predicate, destination) rules evaluated top-to-bottom, first match wins,
with a silent fall-through to the generic destination.  (Spec: "movies +
screen-prefix → recordings folder; console-log path marker → bridge-log
folder; navigation-log path marker → nav-log folder; otherwise a generic
destination".) -/
def specRoutingRules : List ((List Char → List Char → Bool) × Dest) :=
  [ (fun dir f => strContains dir "Movies".toList &&
      "screen-".toList.isPrefixOf f, .screenRecordings),
    (fun dir _ => strContains dir "ConsoleLogs".toList, .qgcLogs),
    (fun dir _ => strContains dir "Navsuite".toList, .navsuiteLogs) ]

/-- First-match-wins evaluation of the spec's rule list. -/
def specRoute (directory recent_file : List Char) : Dest :=
  match specRoutingRules.find? (fun r => r.1 directory recent_file) with
  | some r => r.2
  | none => .generic

/-- `pull_recent_files`, reduced to the pull plan it produces: the cleaned
listing output is split into lines (skipping everything when the result is
`None` or empty), and each line is paired with the destination chosen for it.
`raw` is the raw stdout of the `ls … | head -n …` command. -/
def pull_recent_files_plan (directory : List Char) (raw : Option (List Char)) :
    List (List Char × Dest) :=
  match run_adb_command raw with
  | none => []
  | some txt =>
      if txt.isEmpty then []
      else (pySplitlines txt).map (fun f => (f, routeDest directory f))

/-- The `.thumbnails` marker excluded by `pull_directory`. -/
def thumbMarker : List Char := ".thumbnails".toList

/-- The per-item loop of `pull_directory`: skip items containing
`.thumbnails`; attempt `adb pull` on each remaining item (`ok item` tells
whether the pull subprocess succeeds); a failed pull is logged and the loop
continues with the next item.  Returns the successfully pulled items. -/
def pullDirLoop (ok : List Char → Bool) : List (List Char) → List (List Char)
  | [] => []
  | item :: rest =>
      if strContains item thumbMarker then pullDirLoop ok rest
      else if ok item then item :: pullDirLoop ok rest
      else pullDirLoop ok rest

/-- The items the loop attempts to pull (everything not skipped as a
thumbnail), in order; attempts do not depend on which pulls fail. -/
def pullDirAttempts : List (List Char) → List (List Char)
  | [] => []
  | item :: rest =>
      if strContains item thumbMarker then pullDirAttempts rest
      else item :: pullDirAttempts rest

/-- `pull_directory`: clean the `ls -p` output, and when it is neither `None`
nor empty, run the per-item loop over its lines; `raw` is the raw stdout of
the listing and `ok` the success of each individual `adb pull`.  Returns the
successfully pulled entries. -/
def pull_directory (raw : Option (List Char)) (ok : List Char → Bool) :
    List (List Char) :=
  match run_adb_command raw with
  | none => []
  | some txt =>
      if txt.isEmpty then [] else pullDirLoop ok (pySplitlines txt)

/-- The fixed device-introspection command table of `collect_logs`. -/
def log_types : List (List Char × List Char) :=
  [ ("logcat".toList, "logcat -d".toList),
    ("device_info".toList, "shell getprop".toList),
    ("meminfo".toList, "shell dumpsys meminfo ai.pdw.gcs".toList),
    ("cpu_usage".toList, "shell top -n 1".toList),
    ("network_stats".toList, "shell dumpsys netstats".toList),
    ("network_config".toList, "shell ifconfig".toList),
    ("battery_info".toList, "shell dumpsys battery".toList),
    ("storage_info".toList, "shell df -h".toList),
    ("event_logs".toList, "shell dumpsys activity".toList) ]

/-- The loop body of `collect_logs` over a command table: run each command
through `run_adb_command` (`raw cmd` is its raw stdout, `none` = the command
failed); `if output:` writes a file only for a non-`None`, non-empty cleaned
output, otherwise the entry is skipped and the loop continues.  Returns the
(log name, file contents) pairs written. -/
def collectLogsLoop (raw : List Char → Option (List Char)) :
    List (List Char × List Char) → List (List Char × List Char)
  | [] => []
  | (name, cmd) :: rest =>
      match run_adb_command (raw cmd) with
      | none => collectLogsLoop raw rest
      | some out =>
          if out.isEmpty then collectLogsLoop raw rest
          else (name, out) :: collectLogsLoop raw rest

/-- `collect_logs`: run the loop over the fixed table. -/
def collect_logs (raw : List Char → Option (List Char)) :
    List (List Char × List Char) :=
  collectLogsLoop raw log_types

/-- The fixed pair of candidate application-data paths probed by
`get_application_directories`. -/
def dirs_to_check : List (List Char) :=
  [ "/sdcard/Android/data/org.mavlink.qgroundcontrol/files/PDW_GCS".toList,
    "/sdcard/Android/data/ai.pdw.gcs/files/PDW_GCS".toList ]

/-- The existence-test command built for a candidate path. -/
def testCmd (dir_path : List Char) : List Char :=
  "shell 'test -d ".toList ++ dir_path ++ " && echo exists'".toList

/-- `get_application_directories`: for each candidate path run the existence
test through `run_adb_command` and keep the paths whose cleaned result equals
`"exists"`.  `raw` maps a full command string to its raw stdout. -/
def get_application_directories (raw : List Char → Option (List Char)) :
    List (List Char) :=
  dirs_to_check.filter
    (fun d => run_adb_command (raw (testCmd d)) == some "exists".toList)

/-- The two statically configured recent-file sources of `__main__`
(device path, sorted listing command). -/
def static_sources : List (List Char × List Char) :=
  [ ("/sdcard/Movies".toList, "ls -t /sdcard/Movies | grep \"^screen-\"".toList),
    ("/sdcard/Documents/Navsuite".toList,
      "ls -t /sdcard/Documents/Navsuite".toList) ]

/-- The recent-file source list `__main__` builds: the static sources, plus
one `Logs/ConsoleLogs` source per discovered application directory; the
boolean records whether the "No valid application directories found."
warning was printed (the `else` branch). -/
def build_recent_sources (app_directories : List (List Char)) :
    List (List Char × List Char) × Bool :=
  if app_directories.isEmpty then (static_sources, true)
  else
    (static_sources ++ app_directories.map
      (fun d => (d ++ "/Logs/ConsoleLogs".toList,
        "ls -t ".toList ++ d ++ "/Logs/ConsoleLogs".toList)), false)

/-- `create_zip`: walk the report directory (modelled as the list of its
files, relative path with contents) adding every file under its relative
path, then write `metadata.txt` into the directory and add it to the archive
as well.  Returns the archive as (entry name, contents) pairs in the order
written. -/
def create_zip (files : List (List Char × List Char)) (metadata : List Char) :
    List (List Char × List Char) :=
  files ++ [("metadata.txt".toList, metadata)]

/-- The metadata string `__main__` passes to `create_zip`. -/
def mkMetadata (user_summary timestamp device : List Char) : List Char :=
  "Incident Summary: ".toList ++ user_summary ++
    "\nTimestamp: ".toList ++ timestamp ++ "\nDevice: ".toList ++ device

/-- The line a report is joined from: lines joined by single LF characters
(for building device-listing outputs line by line). -/
def joinLines : List (List Char) → List Char
  | [] => []
  | [x] => x
  | x :: xs => x ++ '\n' :: joinLines xs

/-- A building block of a captured output: a single non-escape character, or
a complete ANSI sequence `ESC [ params m`. -/
inductive Chunk where
  | plain (c : Char)
  | seq (params : List Char)
deriving DecidableEq, Repr

/-- Render a chunk list to the text it denotes. -/
def render : List Chunk → List Char
  | [] => []
  | .plain c :: rest => c :: render rest
  | .seq ps :: rest => '\x1b' :: '[' :: (ps ++ 'm' :: render rest)

/-- The text left over when every ANSI-sequence chunk is deleted. -/
def plainOf : List Chunk → List Char
  | [] => []
  | .plain c :: rest => c :: plainOf rest
  | .seq _ :: rest => plainOf rest

/-- Well-formedness of a chunk: a plain character is not ESC, and sequence
parameters are digits or semicolons. -/
def goodChunk : Chunk → Bool
  | .plain c => !(c == '\x1b')
  | .seq ps => ps.all isAnsiDigitSemi

/-- Does the text start with a sequence `ESC [ <digits> ; <digits> m`
(the exact form named by the spec, one semicolon, at least one digit on
each side)? -/
def startsWithEscDD : List Char → Bool
  | c1 :: c2 :: rest =>
      (c1 == '\x1b') && (c2 == '[') && (!(rest.takeWhile Char.isDigit).isEmpty) &&
        (match rest.dropWhile Char.isDigit with
         | c3 :: rest2 =>
             (c3 == ';') && (!(rest2.takeWhile Char.isDigit).isEmpty) &&
               (match rest2.dropWhile Char.isDigit with
                | c4 :: _ => c4 == 'm'
                | [] => false)
         | [] => false)
  | _ => false

/-- Does the text contain a sequence `ESC [ <digits> ; <digits> m` anywhere? -/
def containsEscDD (l : List Char) : Bool := l.tails.any startsWithEscDD

theorem dropWhile_append_all {α : Type} {p : α → Bool} {l t : List α}
    (h : l.all p = true) : (l ++ t).dropWhile p = t.dropWhile p := by
  induction l with
  | nil => rfl
  | cons a l ih =>
      simp only [List.all_cons, Bool.and_eq_true] at h
      simpa [List.dropWhile_cons, h.1] using ih h.2

theorem takeWhile_append_all {α : Type} {p : α → Bool} {l t : List α}
    (h : l.all p = true) : (l ++ t).takeWhile p = l ++ t.takeWhile p := by
  induction l with
  | nil => rfl
  | cons a l ih =>
      simp only [List.all_cons, Bool.and_eq_true] at h
      simpa [List.takeWhile_cons, h.1] using ih h.2

theorem filterMap_eq_map_of_forall {α β : Type} {l : List α} {f : α → Option β}
    {g : α → β} (h : ∀ x ∈ l, f x = some (g x)) : l.filterMap f = l.map g := by
  induction l with
  | nil => rfl
  | cons a l ih =>
      rw [List.filterMap_cons, h a (by simp), List.map_cons,
        ih (fun x hx => h x (by simp [hx]))]

theorem ansiMatch_length {l rest : List Char} (h : ansiMatch l = some rest) :
    rest.length < l.length := by
  match l with
  | [] => simp [ansiMatch] at h
  | [c] => simp [ansiMatch] at h
  | c1 :: c2 :: tl =>
      simp only [ansiMatch] at h
      split at h
      · cases hd : tl.dropWhile isAnsiDigitSemi with
        | nil => rw [hd] at h; simp at h
        | cons c3 rest2 =>
            rw [hd] at h
            have hle : (tl.dropWhile isAnsiDigitSemi).length ≤ tl.length :=
              (List.dropWhile_sublist _).length_le
            rw [hd] at hle
            simp only [List.length_cons] at hle ⊢
            by_cases hc3 : c3 = 'm'
            · simp [hc3] at h
              subst h
              omega
            · simp [hc3] at h
      · simp at h

theorem stripAnsiGo_congr {f1 f2 : Nat} {l : List Char}
    (h1 : l.length ≤ f1) (h2 : l.length ≤ f2) :
    stripAnsiGo f1 l = stripAnsiGo f2 l := by
  induction f1 generalizing f2 l with
  | zero =>
      have : l = [] := by
        cases l with
        | nil => rfl
        | cons c cs => simp at h1
      subst this
      cases f2 with
      | zero => rfl
      | succ f2 => rfl
  | succ f1 ih =>
      cases l with
      | nil =>
          cases f2 with
          | zero => rfl
          | succ f2 => rfl
      | cons c cs =>
          cases f2 with
          | zero => simp at h2
          | succ f2 =>
              simp only [List.length_cons, Nat.succ_le_succ_iff] at h1 h2
              simp only [stripAnsiGo]
              cases hm : ansiMatch (c :: cs) with
              | some rest =>
                  have hlen := ansiMatch_length hm
                  simp only [List.length_cons] at hlen
                  exact ih (by omega) (by omega)
              | none => rw [ih h1 h2]

theorem stripAnsi_cons_some {c : Char} {cs rest : List Char}
    (h : ansiMatch (c :: cs) = some rest) :
    stripAnsi (c :: cs) = stripAnsi rest := by
  have hlen := ansiMatch_length h
  simp only [List.length_cons] at hlen
  unfold stripAnsi
  simp only [List.length_cons, stripAnsiGo, h]
  exact stripAnsiGo_congr (by omega) (by omega)

theorem stripAnsi_cons_none {c : Char} {cs : List Char}
    (h : ansiMatch (c :: cs) = none) :
    stripAnsi (c :: cs) = c :: stripAnsi cs := by
  unfold stripAnsi
  simp only [List.length_cons, stripAnsiGo, h]

theorem ansiMatch_cons_not_esc {c : Char} {cs : List Char} (h : ¬c = '\x1b') :
    ansiMatch (c :: cs) = none := by
  cases cs with
  | nil => rfl
  | cons c2 tl => simp [ansiMatch, h]

theorem ansiMatch_seq {ps t : List Char} (h : ps.all isAnsiDigitSemi = true) :
    ansiMatch ('\x1b' :: '[' :: (ps ++ 'm' :: t)) = some t := by
  have hm : isAnsiDigitSemi 'm' = false := by decide
  simp only [ansiMatch, if_pos (And.intro rfl rfl), dropWhile_append_all h,
    List.dropWhile_cons, hm]
  simp

theorem stripAnsi_render {chunks : List Chunk} (h : chunks.all goodChunk = true) :
    stripAnsi (render chunks) = plainOf chunks := by
  induction chunks with
  | nil => rfl
  | cons ch rest ih =>
      simp only [List.all_cons, Bool.and_eq_true] at h
      obtain ⟨hch, hrest⟩ := h
      cases ch with
      | plain c =>
          have hc : ¬c = '\x1b' := by simpa [goodChunk] using hch
          simp only [render, plainOf]
          rw [stripAnsi_cons_none (ansiMatch_cons_not_esc hc), ih hrest]
      | seq ps =>
          have hps : ps.all isAnsiDigitSemi = true := by simpa [goodChunk] using hch
          simp only [render, plainOf]
          rw [stripAnsi_cons_some (ansiMatch_seq hps), ih hrest]

theorem esc_not_mem_plainOf {chunks : List Chunk}
    (h : chunks.all goodChunk = true) : '\x1b' ∉ plainOf chunks := by
  induction chunks with
  | nil => simp [plainOf]
  | cons ch rest ih =>
      simp only [List.all_cons, Bool.and_eq_true] at h
      obtain ⟨hch, hrest⟩ := h
      cases ch with
      | plain c =>
          have hc : ¬c = '\x1b' := by simpa [goodChunk] using hch
          simp only [plainOf, List.mem_cons, not_or]
          exact ⟨fun he => hc he.symm, ih hrest⟩
      | seq ps => simpa [plainOf] using ih hrest

theorem startsWithEscDD_esc_mem {t : List Char} (h : startsWithEscDD t = true) :
    '\x1b' ∈ t := by
  match t with
  | [] => simp [startsWithEscDD] at h
  | [c] => simp [startsWithEscDD] at h
  | c1 :: c2 :: rest =>
      have h1 : c1 = '\x1b' := by
        by_contra hne
        simp [startsWithEscDD, hne] at h
      simp [h1]

theorem containsEscDD_eq_false_of_not_mem {l : List Char} (h : '\x1b' ∉ l) :
    containsEscDD l = false := by
  rw [Bool.eq_false_iff]
  intro hc
  obtain ⟨t, ht, hst⟩ := List.any_eq_true.mp hc
  exact h (((List.mem_tails _ _).mp ht).subset (startsWithEscDD_esc_mem hst))

theorem pyStrip_space_left {ws l : List Char} (h : ws.all isPySpace = true) :
    pyStrip (ws ++ l) = pyStrip l := by
  unfold pyStrip
  rw [dropWhile_append_all h]

theorem pyStrip_space_right {ws l : List Char} (h : ws.all isPySpace = true) :
    pyStrip (l ++ ws) = pyStrip l := by
  have hrev : ws.reverse.all isPySpace = true := by
    rw [List.all_eq_true] at h ⊢
    intro x hx
    exact h x (List.mem_reverse.mp hx)
  have hwsnil : ws.dropWhile isPySpace = [] := by
    rw [List.dropWhile_eq_nil_iff]
    intro x hx
    exact (List.all_eq_true.mp h) x hx
  unfold pyStrip
  rw [List.dropWhile_append]
  by_cases he : (l.dropWhile isPySpace).isEmpty
  · rw [if_pos he, hwsnil]
    rw [List.isEmpty_iff] at he
    rw [he]
  · rw [if_neg he, List.reverse_append, dropWhile_append_all hrev]

theorem splitlinesGo_line {x r acc : List Char}
    (h : ∀ c ∈ x, isLineBreak c = false) :
    splitlinesGo false (x ++ '\n' :: r) acc =
      (acc.reverse ++ x) :: splitlinesGo false r [] := by
  induction x generalizing acc with
  | nil => simp [splitlinesGo, isLineBreak]
  | cons c x ih =>
      have hc : isLineBreak c = false := h c (by simp)
      have hcr : ¬c = '\r' := by
        intro he
        rw [he] at hc
        simp [isLineBreak] at hc
      have step : splitlinesGo false ((c :: x) ++ '\n' :: r) acc =
          splitlinesGo false (x ++ '\n' :: r) (c :: acc) := by
        simp [splitlinesGo, hcr, hc]
      rw [step, ih (fun d hd => h d (by simp [hd]))]
      simp

theorem splitlinesGo_last {x acc : List Char}
    (h : ∀ c ∈ x, isLineBreak c = false) (hne : acc.reverse ++ x ≠ []) :
    splitlinesGo false x acc = [acc.reverse ++ x] := by
  induction x generalizing acc with
  | nil =>
      have hacc : acc ≠ [] := by
        intro he
        apply hne
        rw [he]
        rfl
      have he : acc.isEmpty = false := by
        simpa [List.isEmpty_iff] using hacc
      simp [splitlinesGo, he]
  | cons c x ih =>
      have hc : isLineBreak c = false := h c (by simp)
      have hcr : ¬c = '\r' := by
        intro he
        rw [he] at hc
        simp [isLineBreak] at hc
      have step : splitlinesGo false (c :: x) acc =
          splitlinesGo false x (c :: acc) := by
        simp [splitlinesGo, hcr, hc]
      have hne2 : (c :: acc).reverse ++ x ≠ [] := by
        intro he
        have := congrArg List.length he
        simp at this
      rw [step, ih (fun d hd => h d (by simp [hd])) hne2]
      simp

theorem pySplitlines_joinLines {ls : List (List Char)} (hne : ls ≠ [])
    (hclean : ∀ l ∈ ls, ∀ c ∈ l, isLineBreak c = false)
    (hnonempty : ∀ l ∈ ls, l ≠ []) :
    pySplitlines (joinLines ls) = ls := by
  induction ls with
  | nil => exact absurd rfl hne
  | cons x xs ih =>
      cases xs with
      | nil =>
          unfold pySplitlines
          rw [joinLines, splitlinesGo_last (hclean x (by simp))
            (by simpa using hnonempty x (by simp))]
          simp
      | cons y rest =>
          unfold pySplitlines
          rw [joinLines, splitlinesGo_line (hclean x (by simp))]
          simp only [List.reverse_nil, List.nil_append, List.cons.injEq, true_and]
          exact ih (List.cons_ne_nil y rest) (fun l hl => hclean l (by simp [hl]))
            (fun l hl => hnonempty l (by simp [hl]))
          exact fun heq => List.cons_ne_nil y rest heq

theorem pySplitGo_ne_nil {l acc : List Char}
    (h : (∃ c ∈ l, isPySpace c = false) ∨ acc ≠ []) : pySplitGo l acc ≠ [] := by
  induction l generalizing acc with
  | nil =>
      rcases h with ⟨c, hc, _⟩ | hacc
      · exact absurd hc (by simp)
      · have : ¬acc.isEmpty := by simpa [List.isEmpty_iff] using hacc
        simp [pySplitGo, this]
  | cons c cs ih =>
      simp only [pySplitGo]
      by_cases hsp : isPySpace c
      · rw [if_pos hsp]
        by_cases hae : acc.isEmpty
        · rw [if_pos hae]
          have hcs : ∃ d ∈ cs, isPySpace d = false := by
            rcases h with ⟨d, hd, hdn⟩ | hacc
            · rcases List.mem_cons.mp hd with rfl | hmem
              · rw [hsp] at hdn; simp at hdn
              · exact ⟨d, hmem, hdn⟩
            · exact absurd (List.isEmpty_iff.mp hae) hacc
          exact ih (Or.inl hcs)
        · rw [if_neg hae]
          simp
      · rw [if_neg hsp]
        exact ih (Or.inr (by simp))

theorem mem_of_strContains {l pat : List Char} {c : Char}
    (h : strContains l pat = true) (hc : pat.head? = some c) : c ∈ l := by
  unfold strContains at h
  obtain ⟨t, ht, hpre⟩ := List.any_eq_true.mp h
  rw [ List.isPrefixOf_iff_prefix] at hpre
  have hsuf : t <:+ l := (List.mem_tails _ _).mp ht
  have hcpat : c ∈ pat := by
    cases pat with
    | nil => simp at hc
    | cons p ps =>
        simp only [List.head?_cons, Option.some.injEq] at hc
        subst hc
        simp
  exact hsuf.subset (hpre.subset hcpat)

theorem mem_pullDirLoop {ok : List Char → Bool} {items : List (List Char)}
    {item : List Char} (h : item ∈ pullDirLoop ok items) :
    strContains item thumbMarker = false := by
  induction items with
  | nil => simp [pullDirLoop] at h
  | cons i rest ih =>
      simp only [pullDirLoop] at h
      by_cases hth : strContains i thumbMarker = true
      · rw [if_pos hth] at h
        exact ih h
      · rw [if_neg hth] at h
        by_cases hok : ok i = true
        · rw [if_pos hok] at h
          rcases List.mem_cons.mp h with rfl | hmem
          · simpa using hth
          · exact ih hmem
        · rw [if_neg hok] at h
          exact ih h

theorem pullDirLoop_eq_filter_attempts (ok : List Char → Bool) :
    ∀ items, pullDirLoop ok items = (pullDirAttempts items).filter ok := by
  intro items
  induction items with
  | nil => rfl
  | cons i rest ih =>
      simp only [pullDirLoop, pullDirAttempts]
      by_cases hth : strContains i thumbMarker = true
      · rw [if_pos hth, if_pos hth, ih]
      · rw [if_neg hth, if_neg hth, List.filter_cons]
        by_cases hok : ok i = true
        · rw [if_pos hok, if_pos hok, ih]
        · rw [if_neg hok, if_neg hok, ih]

theorem collectLogsLoop_nonempty {raw : List Char → Option (List Char)}
    {table : List (List Char × List Char)} {p : List Char × List Char}
    (h : p ∈ collectLogsLoop raw table) : p.2 ≠ [] := by
  induction table with
  | nil => simp [collectLogsLoop] at h
  | cons entry rest ih =>
      obtain ⟨name, cmd⟩ := entry
      simp only [collectLogsLoop] at h
      split at h
      · exact ih h
      · split at h
        · exact ih h
        · rename_i hne
          rcases List.mem_cons.mp h with rfl | hmem
          · simpa [List.isEmpty_iff] using hne
          · exact ih hmem

theorem selectLoop_skip_invalid {devices : List (List Char)}
    {bad : List StdinLine}
    (hbad : ∀ b ∈ bad, validChoice devices.length b = false)
    (tail : List StdinLine) :
    selectLoop devices (bad ++ tail) = selectLoop devices tail := by
  induction bad with
  | nil => rfl
  | cons b bad ih =>
      have hb := hbad b (by simp)
      have ih' := ih (fun x hx => hbad x (by simp [hx]))
      cases b with
      | none => simpa [selectLoop] using ih'
      | some cb =>
          have hcb : ¬(1 ≤ cb ∧ cb ≤ (devices.length : Int)) := by
            intro hcc
            have hv : validChoice devices.length (some cb) = true := by
              simp [validChoice, hcc.1, hcc.2]
            rw [hb] at hv
            exact Bool.false_ne_true hv
          simp only [List.cons_append, selectLoop, if_neg hcb]
          exact ih'

theorem routeDest_eq_specRoute (dir f : List Char) :
    routeDest dir f = specRoute dir f := by
  unfold routeDest specRoute specRoutingRules
  cases h1 : strContains dir "Movies".toList && "screen-".toList.isPrefixOf f with
  | true =>
      rw [List.find?_cons_of_pos _ (by exact h1)]
      rfl
  | false =>
      rw [List.find?_cons_of_neg _ (by
        show ¬((strContains dir "Movies".toList &&
          "screen-".toList.isPrefixOf f) = true)
        rw [h1]
        exact Bool.false_ne_true)]
      cases h2 : strContains dir "ConsoleLogs".toList with
      | true =>
          rw [List.find?_cons_of_pos _ (by exact h2)]
          rfl
      | false =>
          rw [List.find?_cons_of_neg _ (by
            show ¬(strContains dir "ConsoleLogs".toList = true)
            rw [h2]
            exact Bool.false_ne_true)]
          cases h3 : strContains dir "Navsuite".toList with
          | true =>
              rw [List.find?_cons_of_pos _ (by exact h3)]
              rfl
          | false =>
              rw [List.find?_cons_of_neg _ (by
                show ¬(strContains dir "Navsuite".toList = true)
                rw [h3]
                exact Bool.false_ne_true)]
              rfl

/-- C1: packaging the same report-directory contents twice, with the same
summary and device but different timestamps, produces archives whose entry
names coincide position by position; every entry other than `metadata.txt`
of the first archive appears unchanged in the second; and the appended
`metadata.txt` entries share a common prefix and suffix around the
timestamp, so they differ only in the timestamp field. -/
theorem c1_create_zip_idempotent (files : List (List Char × List Char))
    (summary device t1 t2 : List Char) :
    ((create_zip files (mkMetadata summary t1 device)).map Prod.fst =
      (create_zip files (mkMetadata summary t2 device)).map Prod.fst) ∧
    (∀ e ∈ create_zip files (mkMetadata summary t1 device),
      e.1 ≠ "metadata.txt".toList →
      e ∈ create_zip files (mkMetadata summary t2 device)) ∧
    (∃ pre post,
      (create_zip files (mkMetadata summary t1 device)).getLast? =
        some ("metadata.txt".toList, pre ++ t1 ++ post) ∧
      (create_zip files (mkMetadata summary t2 device)).getLast? =
        some ("metadata.txt".toList, pre ++ t2 ++ post)) := by
  refine ⟨by simp [create_zip], ?_, ?_⟩
  · intro e he hne
    rcases List.mem_append.mp he with hf | hm
    · exact List.mem_append.mpr (Or.inl hf)
    · rw [List.mem_singleton] at hm
      rw [hm] at hne
      simp at hne
  · refine ⟨"Incident Summary: ".toList ++ summary ++ "\nTimestamp: ".toList,
      "\nDevice: ".toList ++ device, ?_, ?_⟩
    · rw [create_zip, List.getLast?_concat]
      simp [mkMetadata]
    · rw [create_zip, List.getLast?_concat]
      simp [mkMetadata]

/-- C1 witness: a non-metadata entry of the first archive is in the second. -/
theorem c1_witness :
    ("a.txt".toList, "data".toList) ∈
      create_zip [("a.txt".toList, "data".toList)]
        (mkMetadata "s".toList "t2".toList "d".toList) :=
  (c1_create_zip_idempotent [("a.txt".toList, "data".toList)] "s".toList
      "d".toList "t1".toList "t2".toList).2.1
    ("a.txt".toList, "data".toList) (by decide) (by decide)

/-- C2 counterexample: the single left-to-right pass of the substitution can
assemble a new escape sequence out of fragments adjacent to a removed match:
on input `ESC[1;ESC[2;3m2m` (which contains the sequence `ESC[2;3m` of the
form `ESC[<digits>;<digits>m`), the cleaned result is `ESC[1;2m`, which
still contains a sequence of that exact form — so the cleaned text is
neither free of such sequences nor byte-identical to the input outside
them. -/
theorem c2_counterexample :
    containsEscDD "\x1b[1;\x1b[2;3m2m".toList = true ∧
    run_adb_command (some "\x1b[1;\x1b[2;3m2m".toList) =
      some "\x1b[1;2m".toList ∧
    containsEscDD "\x1b[1;2m".toList = true := by decide

/-- C2 (amended): for a captured stdout with no surrounding whitespace that
is a concatenation of non-ESC characters and complete `ESC[<digits-or-semis>m`
sequences, the cleaned text is exactly the input with those sequences
deleted (`plainOf`), and it contains no `ESC[<digits>;<digits>m` sequence. -/
theorem c2_ansi_strip (chunks : List Chunk)
    (hgood : chunks.all goodChunk = true)
    (hstrip : pyStrip (render chunks) = render chunks) :
    run_adb_command (some (render chunks)) = some (plainOf chunks) ∧
    containsEscDD (plainOf chunks) = false := by
  constructor
  · simp only [run_adb_command, hstrip, stripAnsi_render hgood]
  · exact containsEscDD_eq_false_of_not_mem (esc_not_mem_plainOf hgood)

/-- C2 witness: cleaning `aESC[1;2mb` yields `ab`, which contains no escape
sequence. -/
theorem c2_witness :
    run_adb_command (some (render
      [Chunk.plain 'a', Chunk.seq ['1', ';', '2'], Chunk.plain 'b'])) =
      some (plainOf
        [Chunk.plain 'a', Chunk.seq ['1', ';', '2'], Chunk.plain 'b']) ∧
    containsEscDD (plainOf
      [Chunk.plain 'a', Chunk.seq ['1', ';', '2'], Chunk.plain 'b']) = false :=
  c2_ansi_strip _ (by decide) (by decide)

/-- C10 counterexample: the returned text can itself carry leading/trailing
whitespace, exposed when ANSI sequences at the ends are removed after the
strip: on raw stdout `ESC[1m ESC[2m` the returned text is a single space. -/
theorem c10_counterexample :
    run_adb_command (some "\x1b[1m \x1b[2m".toList) = some [' '] ∧
    isPySpace ' ' = true := by decide

/-- C10 (amended): the captured stdout is whitespace-stripped at both ends
before ANSI removal, so whitespace surrounding the raw output is never
preserved and never affects the result: surrounding any raw output with
whitespace leaves the returned text unchanged. -/
theorem c10_strip_before_ansi (raw ws1 ws2 : List Char)
    (h1 : ws1.all isPySpace = true) (h2 : ws2.all isPySpace = true) :
    run_adb_command (some (ws1 ++ raw ++ ws2)) = run_adb_command (some raw) := by
  simp only [run_adb_command]
  rw [pyStrip_space_right h2, pyStrip_space_left h1]

/-- C10 witness: surrounding `ESC[1;2mhi` with a space and a tab does not
change the returned text. -/
theorem c10_witness :
    run_adb_command (some ([' '] ++ "\x1b[1;2mhi".toList ++ ['\t'])) =
      run_adb_command (some "\x1b[1;2mhi".toList) :=
  c10_strip_before_ansi "\x1b[1;2mhi".toList [' '] ['\t'] (by decide) (by decide)

/-- C3: for a device-listing stdout consisting of one header line followed by
K device lines, each containing the liveness marker `"device"` (lines free of
line-break characters, output carrying no surrounding whitespace), discovery
returns exactly K identifiers: the first whitespace-delimited token of each
line, in line order. -/
theorem c3_device_discovery (header : List Char) (devLines : List (List Char))
    (hheader : header ≠ [])
    (hclean : ∀ l ∈ header :: devLines, ∀ c ∈ l, isLineBreak c = false)
    (hmarker : ∀ l ∈ devLines, strContains l deviceMarker = true)
    (hstrip : pyStrip (joinLines (header :: devLines)) =
      joinLines (header :: devLines)) :
    get_connected_devices (some (joinLines (header :: devLines))) =
      devLines.map (fun l => (pySplit l).headI) ∧
    (devLines.map (fun l => (pySplit l).headI)).length = devLines.length := by
  refine ⟨?_, by simp⟩
  have hnonempty : ∀ l ∈ header :: devLines, l ≠ [] := by
    intro l hl
    rcases List.mem_cons.mp hl with rfl | hmem
    · exact hheader
    · intro he
      have hm := hmarker l hmem
      rw [he] at hm
      exact absurd hm (by decide)
  simp only [get_connected_devices]
  rw [hstrip, pySplitlines_joinLines (List.cons_ne_nil _ _) hclean hnonempty]
  rw [show (header :: devLines).drop 1 = devLines from rfl]
  rw [List.filter_eq_self.mpr hmarker]
  apply filterMap_eq_map_of_forall
  intro l hl
  have hd : 'd' ∈ l := mem_of_strContains (hmarker l hl) rfl
  have hne : pySplit l ≠ [] :=
    pySplitGo_ne_nil (Or.inl ⟨'d', hd, by decide⟩)
  cases hps : pySplit l with
  | nil => exact absurd hps hne
  | cons a t => simp [hps, List.headI]

/-- C3 witness: a header plus two live device lines yields exactly the two
leading serial numbers, in order. -/
theorem c3_witness :
    get_connected_devices (some (joinLines
      ["List of devices attached".toList,
       "emulator-5554\tdevice".toList,
       "0123456789ABCDEF device usb:1-1".toList])) =
      ["emulator-5554\tdevice".toList,
       "0123456789ABCDEF device usb:1-1".toList].map
        (fun l => (pySplit l).headI) ∧
    (["emulator-5554\tdevice".toList,
      "0123456789ABCDEF device usb:1-1".toList].map
        (fun l => (pySplit l).headI)).length =
      ["emulator-5554\tdevice".toList,
       "0123456789ABCDEF device usb:1-1".toList].length :=
  c3_device_discovery "List of devices attached".toList
    ["emulator-5554\tdevice".toList, "0123456789ABCDEF device usb:1-1".toList]
    (by decide) (by decide) (by decide) (by decide)

/-- C4: a failed listing command makes discovery return the empty sequence;
the front of `__main__` then exits with status 1 — a non-zero status — before
any collection stage runs (the `exited` outcome carries no stages); and a
failed listing is handled identically to a successful listing showing zero
attached devices (header-only output). -/
theorem c4_listing_failure_fatal (stdin : List StdinLine) (simplified : Bool) :
    get_connected_devices none = [] ∧
    get_connected_devices (some (joinLines [adbHeader])) =
      get_connected_devices none ∧
    mainFront none stdin simplified = .exited 1 ∧
    (1 : Nat) ≠ 0 ∧
    mainFront (some (joinLines [adbHeader])) stdin simplified =
      mainFront none stdin simplified ∧
    (∀ d stages, mainFront none stdin simplified ≠ .ran d stages) := by
  have hdev : get_connected_devices (some (joinLines [adbHeader])) = [] := by
    decide
  refine ⟨rfl, hdev, rfl, by decide, ?_, ?_⟩
  · unfold mainFront
    rw [hdev]
    rfl
  · intro d stages h
    have h2 : MainOutcome.exited 1 = MainOutcome.ran d stages := h
    exact MainOutcome.noConfusion h2

/-- C4 witness: with empty stdin and default flags, a failed listing makes
the front of `__main__` exit with status 1. -/
theorem c4_witness : mainFront none [] false = .exited 1 :=
  (c4_listing_failure_fatal [] false).2.2.1

/-- C5: selection auto-returns the only discovered device without reading
stdin; with two or more devices, after any run of invalid entries (parse
failures or out-of-range numbers) the first valid choice c (1 ≤ c ≤ number
of devices) selects the device at position c − 1. -/
theorem c5_select_device (devices : List (List Char)) (d : List Char)
    (bad : List StdinLine) (c : Int) (rest : List StdinLine) :
    (devices = [d] → ∀ stdin, select_device devices stdin = .device d) ∧
    (2 ≤ devices.length →
      (∀ b ∈ bad, validChoice devices.length b = false) →
      validChoice devices.length (some c) = true →
      select_device devices (bad ++ some c :: rest) =
        .device (devices.getD (c - 1).toNat [])) := by
  constructor
  · rintro rfl stdin
    simp [select_device]
  · intro hlen hbad hc
    have hc' : 1 ≤ c ∧ c ≤ (devices.length : Int) := by
      simpa [validChoice] using hc
    have hloop : selectLoop devices (bad ++ some c :: rest) =
        some (devices.getD (c - 1).toNat []) := by
      rw [selectLoop_skip_invalid hbad]
      simp only [selectLoop, if_pos hc']
    have h0 : ¬devices.isEmpty = true := by
      rw [List.isEmpty_iff]
      intro he
      rw [he] at hlen
      simp at hlen
    have h1 : ¬devices.length = 1 := by omega
    unfold select_device
    rw [if_neg h0, if_neg h1, hloop]

/-- C5 witness: one device is auto-selected; with two devices, a parse
failure and the out-of-range choice 5 are re-prompted and choice 2 selects
the second device. -/
theorem c5_witness :
    select_device ["A".toList] [] = .device "A".toList ∧
    select_device ["A".toList, "B".toList] [none, some 5, some 2] =
      .device "B".toList :=
  ⟨(c5_select_device ["A".toList] "A".toList [] 0 []).1 rfl [],
   ((c5_select_device ["A".toList, "B".toList] "A".toList [none, some 5] 2
      []).2 (by decide) (by decide) (by decide)).trans (by decide)⟩

/-- C6: every file of a recent-file pull plan is routed to the destination
given by the spec's ordered first-match-wins rule list (Movies + `screen-`
prefix → Screen Recordings; `ConsoleLogs` marker → QGC Logs; `Navsuite`
marker → Navsuite Logs; otherwise the generic destination). -/
theorem c6_recent_file_routing (directory : List Char)
    (raw : Option (List Char)) :
    ∀ e ∈ pull_recent_files_plan directory raw,
      e.2 = specRoute directory e.1 := by
  intro e he
  unfold pull_recent_files_plan at he
  split at he
  · simp at he
  · split at he
    · simp at he
    · obtain ⟨f, _, rfl⟩ := List.mem_map.mp he
      simpa using routeDest_eq_specRoute directory f

/-- C6 witness: `screen-20240101.mp4` listed under `/sdcard/Movies` is routed
to the Screen Recordings folder, matching the spec rule list. -/
theorem c6_witness :
    (("screen-20240101.mp4".toList, Dest.screenRecordings) ∈
      pull_recent_files_plan "/sdcard/Movies".toList
        (some "screen-20240101.mp4".toList)) ∧
    Dest.screenRecordings =
      specRoute "/sdcard/Movies".toList "screen-20240101.mp4".toList :=
  ⟨by decide,
   c6_recent_file_routing "/sdcard/Movies".toList
     (some "screen-20240101.mp4".toList)
     ("screen-20240101.mp4".toList, Dest.screenRecordings) (by decide)⟩

/-- C7: no entry containing the `.thumbnails` marker is ever among the
entries `pull_directory` pulls; the pulled entries are exactly the attempted
(non-thumbnail) entries filtered by pull success, the attempted list being
independent of which pulls fail; and a failing entry is simply skipped — the
loop continues over the remaining entries unchanged. -/
theorem c7_pull_directory (raw : Option (List Char)) (ok : List Char → Bool) :
    (∀ item ∈ pull_directory raw ok, strContains item thumbMarker = false) ∧
    (∀ items, pullDirLoop ok items = (pullDirAttempts items).filter ok) ∧
    (∀ item rest, ok item = false →
      pullDirLoop ok (item :: rest) = pullDirLoop ok rest) := by
  refine ⟨?_, pullDirLoop_eq_filter_attempts ok, ?_⟩
  · intro item hmem
    unfold pull_directory at hmem
    split at hmem
    · simp at hmem
    · split at hmem
      · simp at hmem
      · exact mem_pullDirLoop hmem
  · intro item rest hfail
    simp only [pullDirLoop]
    by_cases hth : strContains item thumbMarker = true
    · rw [if_pos hth]
    · rw [if_neg hth, if_neg (by rw [hfail]; exact Bool.false_ne_true)]

/-- C7 witness: with a listing containing `.thumbnails/` and with `bad.jpg`
failing to pull, the pulled entry `pic.jpg` is thumbnail-free, and a failing
head entry leaves the loop over the remaining entries unchanged. -/
theorem c7_witness :
    strContains "pic.jpg".toList thumbMarker = false ∧
    pullDirLoop (fun _ => false) ["a.jpg".toList, "b.jpg".toList] =
      pullDirLoop (fun _ => false) ["b.jpg".toList] :=
  ⟨(c7_pull_directory (some ".thumbnails/\npic.jpg\nbad.jpg".toList)
      (fun i => !(i == "bad.jpg".toList))).1 "pic.jpg".toList (by decide),
   (c7_pull_directory none (fun _ => false)).2.2 "a.jpg".toList
     ["b.jpg".toList] rfl⟩

/-- C8: `collect_logs` writes a file only for a non-empty cleaned output —
no written file is ever empty — and a command whose execution fails is
skipped, leaving the processing of the remaining table entries unchanged. -/
theorem c8_collect_logs (raw : List Char → Option (List Char)) :
    (∀ p ∈ collect_logs raw, p.2 ≠ []) ∧
    (∀ name cmd rest, raw cmd = none →
      collectLogsLoop raw ((name, cmd) :: rest) = collectLogsLoop raw rest) := by
  constructor
  · exact fun p hp => collectLogsLoop_nonempty hp
  · intro name cmd rest h
    simp only [collectLogsLoop, run_adb_command, h]

/-- C8 witness: with only `logcat -d` producing output, the written `logcat`
file is non-empty; a failing command at the head of the table leaves the
rest of the loop unchanged. -/
theorem c8_witness :
    ("LOG".toList ≠ ([] : List Char)) ∧
    collectLogsLoop (fun _ => none) [("a".toList, "b".toList)] =
      collectLogsLoop (fun _ => none) [] :=
  ⟨(c8_collect_logs (fun c =>
      if c = "logcat -d".toList then some "LOG".toList else none)).1
      ("logcat".toList, "LOG".toList) (by decide),
   (c8_collect_logs (fun _ => none)).2 "a".toList "b".toList [] rfl⟩

/-- C9: the probe tests exactly two fixed candidate paths and returns the
sub-sequence of them whose existence test answered `exists`; when neither
exists, `__main__` prints the warning and proceeds with exactly the two
statically configured recent-file sources and no application-derived
source. -/
theorem c9_app_directory_probe (raw : List Char → Option (List Char)) :
    dirs_to_check.length = 2 ∧
    List.Sublist (get_application_directories raw) dirs_to_check ∧
    (∀ d ∈ get_application_directories raw,
      run_adb_command (raw (testCmd d)) = some "exists".toList) ∧
    (∀ d ∈ dirs_to_check,
      run_adb_command (raw (testCmd d)) = some "exists".toList →
      d ∈ get_application_directories raw) ∧
    (get_application_directories raw = [] →
      build_recent_sources (get_application_directories raw) =
        (static_sources, true) ∧
      static_sources.length = 2) := by
  refine ⟨rfl, List.filter_sublist _, ?_, ?_, ?_⟩
  · intro d hd
    have hp := (List.mem_filter.mp hd).2
    simpa using hp
  · intro d hd he
    exact List.mem_filter.mpr ⟨hd, by simp [he]⟩
  · intro hnil
    rw [hnil]
    exact ⟨rfl, rfl⟩

/-- C9 witness: when both existence tests return empty output, the probe
returns no directory and the source list is exactly the two static
sources, with the warning printed. -/
theorem c9_witness :
    build_recent_sources
      (get_application_directories (fun _ => some ([] : List Char))) =
      (static_sources, true) ∧
    ("/sdcard/Android/data/ai.pdw.gcs/files/PDW_GCS".toList ∈
      get_application_directories (fun c =>
        if c = testCmd "/sdcard/Android/data/ai.pdw.gcs/files/PDW_GCS".toList
        then some "exists\n".toList else some [])) :=
  ⟨((c9_app_directory_probe (fun _ => some ([] : List Char))).2.2.2.2
      (by decide)).1,
   (c9_app_directory_probe (fun c =>
      if c = testCmd "/sdcard/Android/data/ai.pdw.gcs/files/PDW_GCS".toList
      then some "exists\n".toList else some [])).2.2.2.1
     "/sdcard/Android/data/ai.pdw.gcs/files/PDW_GCS".toList
     (by decide) (by decide)⟩

end BugReport
